import Mathlib

/-!
Shallow embedding of the Quantisti options-trading dashboard and its
backtest schema, for checking the natural-language specification against
the code.

The embedded source is the strategy-intelligence page (the module defining
`findLeg`, `buildStrategiesFromQuote`, `computeLegPl`, `buildPayoff` and
`generateSummaryFromQuote`) together with the `backtests` table of the
strategy-simulator SQL schema.

Modelling conventions:
* JavaScript numbers are modelled as rationals (`ℚ`); `Math.round` is
  `jsRound` below (round half toward positive infinity), `Math.floor` is
  `Int.floor`, `Math.max`/`Math.min` are `max`/`min`.
* `new Date(s).getTime()` (used only as a sort key for expiry strings) is
  modelled by an abstract parameter `dateKey : String → ℤ`.
* `Array.prototype.sort`, which is stable in JavaScript, is modelled by
  `List.insertionSort` (stable) with the relation induced by the comparator.
* `new Set(array)` (insertion-order deduplication, keeping first
  occurrences) is modelled by `jsSetDedup`.
* `Math.random()` results are passed explicitly as a `RandomDraws` record,
  one field per call site in source order.
-/

unseal Rat.add Rat.mul Rat.sub Rat.inv

namespace Quantisti

/-- Option side of a quote leg: `'CALL' | 'PUT'` in the source. -/
inductive OptionType where
  | CALL
  | PUT
deriving DecidableEq, Repr

/-- Trade action of a leg: `'BUY' | 'SELL'` in the source. -/
inductive Action where
  | BUY
  | SELL
deriving DecidableEq, Repr

/-- Point of a payoff curve, mirroring `PayoffPoint` (`price`, `pl`), here
with the `Math.round`ed integer values the code stores. -/
structure PayoffPoint where
  price : ℤ
  pl : ℤ
deriving DecidableEq, Repr

/-- Mirrors the `OptionLeg` interface of the dashboard data model
(`identifier?`, `action`, `optionType`, `quantity?`, `strike`, `expiry`,
`premium`, `projectedPl`, `marginImpact`, `payoffPoints`). -/
structure OptionLeg where
  identifier : Option String
  action : Action
  optionType : OptionType
  quantity : Option ℚ
  strike : ℚ
  expiry : String
  premium : ℚ
  projectedPl : ℚ
  marginImpact : ℚ
  payoffPoints : List PayoffPoint
deriving DecidableEq, Repr

/-- Mirrors the `MarketLegQuote` type (`identifier?`, `strike`,
`option_type`, `expiry`, `bid?`, `ask?`, `last?`, `iv?`). -/
structure MarketLegQuote where
  identifier : Option String
  strike : ℚ
  option_type : OptionType
  expiry : String
  bid : Option ℚ
  ask : Option ℚ
  last : Option ℚ
  iv : Option ℚ
deriving DecidableEq, Repr

/-- Mirrors the `MarketQuoteSnapshot` type (`symbol`, `last_price`, `legs`). -/
structure MarketQuoteSnapshot where
  symbol : String
  last_price : ℚ
  legs : List MarketLegQuote
deriving DecidableEq, Repr

/-- Mirrors the `StrategyRecommendation` interface.  `expectedPl` and
`maxLoss` are produced by `Math.round`, hence integers. -/
structure StrategyRecommendation where
  name : String
  type : String
  strikes : String
  expectedPl : ℤ
  maxLoss : ℤ
  winProbability : ℚ
  riskReward : ℚ
  margin : ℚ
  score : ℚ
  payoffPoints : List PayoffPoint
  legs : List OptionLeg
deriving DecidableEq, Repr

/-- The `LOT_SIZE` constant of the page (`const LOT_SIZE = 75`). -/
def LOT_SIZE : ℚ := 75

/-- JavaScript `Math.round`: rounds to the nearest integer, halves toward
positive infinity, i.e. `⌊x + 1/2⌋` (written with the executable
`Rat.floor`; see `jsRound_eq_intFloor`). -/
def jsRound (q : ℚ) : ℤ := (q + 1 / 2).floor

/-- Embeds `getPremium`: `leg.last ?? leg.bid ?? leg.ask ?? 0`. -/
def getPremium (leg : MarketLegQuote) : ℚ :=
  (leg.last.getD (leg.bid.getD (leg.ask.getD 0)))

/-- Embeds `toOptionLeg(leg, action)`: builds an `OptionLeg` from a market
quote leg.  The source object literal sets no `quantity`, hence `none`. -/
def toOptionLeg (leg : MarketLegQuote) (action : Action) : OptionLeg :=
  { identifier := leg.identifier
    action := action
    optionType := leg.option_type
    quantity := none
    strike := leg.strike
    expiry := leg.expiry
    premium := getPremium leg
    projectedPl := 0
    marginImpact := 0
    payoffPoints := [] }

/-- The `reduce` step of `findLeg`: starting from the first element of the
filtered list, keep the element whose strike is nearest the target
(strictly-nearer replaces, so ties keep the earlier element). -/
def nearestIn (t : ℚ) (first : MarketLegQuote) (rest : List MarketLegQuote) :
    MarketLegQuote :=
  rest.foldl
    (fun prev curr => if |curr.strike - t| < |prev.strike - t| then curr else prev)
    first

/-- Embeds `findLeg(legs, target, direction)`: filter the legs with strike
on the requested side of the target (`'above'` keeps `strike >= target`,
any other direction string keeps `strike <= target`), return `undefined`
(`none`) when the filter is empty, otherwise the filtered leg whose strike
is nearest the target. -/
def findLeg (legs : List MarketLegQuote) (target : ℚ) (direction : String) :
    Option MarketLegQuote :=
  let filtered :=
    if direction = "above" then
      legs.filter fun leg => decide (target ≤ leg.strike)
    else
      legs.filter fun leg => decide (leg.strike ≤ target)
  match filtered with
  | [] => none
  | p :: rest => some (nearestIn target p rest)

/-- Embeds `computeLegPl(leg, price)`: intrinsic value at `price` minus the
entry premium, times lot size, times `+1` for BUY / `-1` for SELL, times
quantity (`leg.quantity ?? 1`; `leg.premium ?? 0` is the identity on the
non-nullable `premium` field). -/
def computeLegPl (leg : OptionLeg) (price : ℚ) : ℚ :=
  let qty := leg.quantity.getD 1
  let premium := leg.premium
  let intrinsic :=
    if leg.optionType = OptionType.CALL then max (price - leg.strike) 0
    else max (leg.strike - price) 0
  let raw := intrinsic - premium
  raw * LOT_SIZE * (if leg.action = Action.BUY then 1 else -1) * qty

/-- The lower end of the payoff grid of `buildPayoff`:
`Math.min(spot, ...strikes) - 400`. -/
def payoffLo (legs : List OptionLeg) (spot : ℚ) : ℚ :=
  ((legs.map (fun l => l.strike)).foldl min spot) - 400

/-- The upper end of the payoff grid of `buildPayoff`:
`Math.max(spot, ...strikes) + 400`. -/
def payoffHi (legs : List OptionLeg) (spot : ℚ) : ℚ :=
  ((legs.map (fun l => l.strike)).foldl max spot) + 400

/-- Number of grid points visited by the loop
`for (let p = min; p <= max; p += 50)`: the integers `k ≥ 0` with
`min + 50k ≤ max`, i.e. `⌊(max - min)/50⌋ + 1` (the span is ≥ 800 > 0). -/
def payoffCount (legs : List OptionLeg) (spot : ℚ) : ℕ :=
  ((payoffHi legs spot - payoffLo legs spot) / 50).floor.toNat + 1

/-- Embeds `buildPayoff(legs, spot)`: on each grid price `p`, sum
`computeLegPl` over the legs (a `reduce` with initial value 0) and store
the rounded price and rounded total P&L. -/
def buildPayoff (legs : List OptionLeg) (spot : ℚ) : List PayoffPoint :=
  if legs = [] then []
  else
    (List.range (payoffCount legs spot)).map fun (k : ℕ) =>
      let p := payoffLo legs spot + 50 * (k : ℚ)
      { price := jsRound p
        pl := jsRound (legs.foldl (fun sum leg => sum + computeLegPl leg p) 0) }

/-- Fuel-driven worker for `jsSetDedup` (structural recursion on the fuel;
the fuel starts at the list length and filtering never increases length,
so it never runs out). -/
def jsSetDedupAux {α : Type} [DecidableEq α] : ℕ → List α → List α
  | 0, _ => []
  | _, [] => []
  | n + 1, x :: xs => x :: jsSetDedupAux n (xs.filter fun y => decide (y ≠ x))

/-- Insertion-order deduplication of a list, keeping the first occurrence
of each element: the semantics of `Array.from(new Set(array))`. -/
def jsSetDedup {α : Type} [DecidableEq α] (l : List α) : List α :=
  jsSetDedupAux l.length l

/-- Embeds the `expiries` computation of `buildStrategiesFromQuote`:
`Array.from(new Set(legs.map(l => l.expiry).filter(Boolean).sort(byDate)))`
— map to expiry strings, drop falsy (empty) strings, sort ascending by
`new Date(·).getTime()` (the abstract `dateKey`), deduplicate keeping
first occurrences. -/
def sortedExpiries (dateKey : String → ℤ) (legs : List MarketLegQuote) :
    List String :=
  jsSetDedup
    (((legs.map fun leg => leg.expiry).filter fun s => decide (s ≠ "")).insertionSort
      fun a b => dateKey a ≤ dateKey b)

/-- The `activeExpiry` of `buildStrategiesFromQuote`: `expiries[0]`
(`undefined`, i.e. `none`, when no leg has a non-empty expiry). -/
def activeExpiry (dateKey : String → ℤ) (quote : MarketQuoteSnapshot) :
    Option String :=
  (sortedExpiries dateKey quote.legs).head?

/-- The `expiryLegs` of `buildStrategiesFromQuote`:
`legs.filter(leg => leg.expiry === activeExpiry)`.  When `activeExpiry` is
`undefined` no string equals it, so the filter is empty. -/
def expiryLegs (dateKey : String → ℤ) (quote : MarketQuoteSnapshot) :
    List MarketLegQuote :=
  match activeExpiry dateKey quote with
  | none => []
  | some e => quote.legs.filter fun leg => decide (leg.expiry = e)

/-- The `callLegs` of `buildStrategiesFromQuote`: CALL legs of the active
expiry, sorted ascending by strike. -/
def callLegs (dateKey : String → ℤ) (quote : MarketQuoteSnapshot) :
    List MarketLegQuote :=
  ((expiryLegs dateKey quote).filter
      fun leg => decide (leg.option_type = OptionType.CALL)).insertionSort
    fun a b => a.strike ≤ b.strike

/-- The `putLegs` of `buildStrategiesFromQuote`: PUT legs of the active
expiry, sorted ascending by strike. -/
def putLegs (dateKey : String → ℤ) (quote : MarketQuoteSnapshot) :
    List MarketLegQuote :=
  ((expiryLegs dateKey quote).filter
      fun leg => decide (leg.option_type = OptionType.PUT)).insertionSort
    fun a b => a.strike ≤ b.strike

/-- The `shortCall` selection: `findLeg(callLegs, price + 100, 'above')`. -/
def shortCallQ (dateKey : String → ℤ) (quote : MarketQuoteSnapshot) :
    Option MarketLegQuote :=
  findLeg (callLegs dateKey quote) (quote.last_price + 100) "above"

/-- The `longCall` selection:
`shortCall ? findLeg(callLegs, shortCall.strike + 100, 'above') : undefined`. -/
def longCallQ (dateKey : String → ℤ) (quote : MarketQuoteSnapshot) :
    Option MarketLegQuote :=
  (shortCallQ dateKey quote).bind fun sc =>
    findLeg (callLegs dateKey quote) (sc.strike + 100) "above"

/-- The `shortPut` selection: `findLeg(putLegs, price - 100, 'below')`. -/
def shortPutQ (dateKey : String → ℤ) (quote : MarketQuoteSnapshot) :
    Option MarketLegQuote :=
  findLeg (putLegs dateKey quote) (quote.last_price - 100) "below"

/-- The `longPut` selection:
`shortPut ? findLeg(putLegs, shortPut.strike - 100, 'below') : undefined`. -/
def longPutQ (dateKey : String → ℤ) (quote : MarketQuoteSnapshot) :
    Option MarketLegQuote :=
  (shortPutQ dateKey quote).bind fun sp =>
    findLeg (putLegs dateKey quote) (sp.strike - 100) "below"

/-- The `netCredit` reduction (used by all three strategy builders):
`legs.reduce((sum, leg) => sum + (leg.action === 'SELL' ? leg.premium : -leg.premium), 0)`. -/
def netCredit (legs : List OptionLeg) : ℚ :=
  legs.foldl
    (fun sum leg => sum + (if leg.action = Action.SELL then leg.premium else -leg.premium))
    0

/-- The iron-condor record pushed by `buildStrategiesFromQuote` when all
four legs are found. -/
def mkCondor (shortCall longCall shortPut longPut : MarketLegQuote) :
    StrategyRecommendation :=
  let condorLegs :=
    [toOptionLeg shortCall Action.SELL, toOptionLeg longCall Action.BUY,
     toOptionLeg shortPut Action.SELL, toOptionLeg longPut Action.BUY]
  let nc := netCredit condorLegs
  let expectedPl := jsRound (nc * LOT_SIZE)
  let wingWidth :=
    min (longCall.strike - shortCall.strike) (shortPut.strike - longPut.strike)
  { name := "Live Iron Condor"
    type := "Neutral Income"
    strikes := toString shortPut.strike ++ " / " ++ toString shortCall.strike
    expectedPl := expectedPl
    maxLoss := jsRound (max (wingWidth * LOT_SIZE - (expectedPl : ℚ)) 0)
    winProbability := 65 / 100
    riskReward :=
      if 0 < wingWidth then
        (expectedPl : ℚ) / (wingWidth * LOT_SIZE - (expectedPl : ℚ) + 1 / 1000000)
      else 15 / 10
    margin := max 250000 (wingWidth * LOT_SIZE * 2)
    score := 88
    payoffPoints := []
    legs := condorLegs }

/-- The bull-put-spread record pushed by `buildStrategiesFromQuote` when
both put legs are found. -/
def mkBullPut (shortPut longPut : MarketLegQuote) : StrategyRecommendation :=
  let spreadLegs := [toOptionLeg shortPut Action.SELL, toOptionLeg longPut Action.BUY]
  let nc := netCredit spreadLegs
  let expectedPl := jsRound (nc * LOT_SIZE)
  let strikeDiff := shortPut.strike - longPut.strike
  { name := "Live Bull Put Spread"
    type := "Directional Credit"
    strikes := toString shortPut.strike ++ " / " ++ toString longPut.strike
    expectedPl := expectedPl
    maxLoss := jsRound (max (strikeDiff * LOT_SIZE - (expectedPl : ℚ)) 0)
    winProbability := 7 / 10
    riskReward :=
      if 0 < strikeDiff then
        (expectedPl : ℚ) / (strikeDiff * LOT_SIZE - (expectedPl : ℚ) + 1 / 1000000)
      else 12 / 10
    margin := max 150000 (strikeDiff * LOT_SIZE)
    score := 80
    payoffPoints := []
    legs := spreadLegs }

/-- The bear-call-spread record pushed by `buildStrategiesFromQuote` when
both call legs are found. -/
def mkBearCall (shortCall longCall : MarketLegQuote) : StrategyRecommendation :=
  let spreadLegs := [toOptionLeg shortCall Action.SELL, toOptionLeg longCall Action.BUY]
  let nc := netCredit spreadLegs
  let expectedPl := jsRound (nc * LOT_SIZE)
  let strikeDiff := longCall.strike - shortCall.strike
  { name := "Live Bear Call Spread"
    type := "Directional Credit"
    strikes := toString shortCall.strike ++ " / " ++ toString longCall.strike
    expectedPl := expectedPl
    maxLoss := jsRound (max (strikeDiff * LOT_SIZE - (expectedPl : ℚ)) 0)
    winProbability := 62 / 100
    riskReward :=
      if 0 < strikeDiff then
        (expectedPl : ℚ) / (strikeDiff * LOT_SIZE - (expectedPl : ℚ) + 1 / 1000000)
      else 11 / 10
    margin := max 150000 (strikeDiff * LOT_SIZE)
    score := 76
    payoffPoints := []
    legs := spreadLegs }

/-- The iron-condor push of `buildStrategiesFromQuote`: one strategy when
`shortCall && longCall && shortPut && longPut`, nothing otherwise. -/
def condorList (dateKey : String → ℤ) (quote : MarketQuoteSnapshot) :
    List StrategyRecommendation :=
  match shortCallQ dateKey quote, longCallQ dateKey quote,
      shortPutQ dateKey quote, longPutQ dateKey quote with
  | some a, some b, some c, some d => [mkCondor a b c d]
  | _, _, _, _ => []

/-- The bull-put-spread push of `buildStrategiesFromQuote`: one strategy
when `shortPut && longPut`, nothing otherwise. -/
def bullPutList (dateKey : String → ℤ) (quote : MarketQuoteSnapshot) :
    List StrategyRecommendation :=
  match shortPutQ dateKey quote, longPutQ dateKey quote with
  | some c, some d => [mkBullPut c d]
  | _, _ => []

/-- The bear-call-spread push of `buildStrategiesFromQuote`: one strategy
when `shortCall && longCall`, nothing otherwise. -/
def bearCallList (dateKey : String → ℤ) (quote : MarketQuoteSnapshot) :
    List StrategyRecommendation :=
  match shortCallQ dateKey quote, longCallQ dateKey quote with
  | some a, some b => [mkBearCall a b]
  | _, _ => []

/-- Embeds `buildStrategiesFromQuote(quote)`: empty quote legs give `[]`;
otherwise push the iron condor (when all four legs resolve), the bull put
spread and the bear call spread, in that order, and sort descending by
`expectedPl` (comparator `(a, b) => b.expectedPl - a.expectedPl`). -/
def buildStrategiesFromQuote (dateKey : String → ℤ)
    (quote : MarketQuoteSnapshot) : List StrategyRecommendation :=
  if quote.legs = [] then []
  else
    (condorList dateKey quote ++ bullPutList dateKey quote ++
        bearCallList dateKey quote).insertionSort
      fun a b => b.expectedPl ≤ a.expectedPl

/-- Embeds the `netPremium` reduction of the live-strategy mapping:
`legs.reduce((sum, leg) => sum + (leg.action === 'SELL' ? 1 : -1) * (leg.premium ?? 0) * LOT_SIZE, 0)`
(the `?? 0` is the identity on the non-nullable `premium`). -/
def netPremium (legs : List OptionLeg) : ℚ :=
  legs.foldl
    (fun sum leg =>
      sum + (if leg.action = Action.SELL then 1 else -1) * leg.premium * LOT_SIZE)
    0

/-- The `trendMessages` constant array of the page. -/
def trendMessages : List String :=
  ["Range-bound consolidation",
   "Mild uptrend with acceleration",
   "Volatility spike likely",
   "Bearish drift with short-covering risk",
   "Sideways with bullish bias"]

/-- The six `Math.random()` results consumed by one call of
`generateSummaryFromQuote`, in source order: `randomMove`, `confidence`,
`predictedClose`, `vix`, `oiPcr`, `trend`. -/
structure RandomDraws where
  r0 : ℚ
  r1 : ℚ
  r2 : ℚ
  r3 : ℚ
  r4 : ℚ
  r5 : ℚ
deriving DecidableEq, Repr

/-- The `predictedRange` object of the weekly summary. -/
structure PredictedRange where
  lower : ℤ
  upper : ℤ
  confidence : ℤ
deriving DecidableEq, Repr

/-- The `context` object of the weekly summary. -/
structure SummaryContext where
  vix : ℚ
  oiPcr : ℚ
  trend : String
deriving DecidableEq, Repr

/-- The record returned by `generateSummaryFromQuote`. -/
structure WeeklySummary where
  weekOf : String
  expiry : String
  predictedRange : PredictedRange
  closingPriceEstimate : ℤ
  context : SummaryContext
deriving DecidableEq, Repr

/-- JavaScript `Number(x.toFixed(n))` for the non-negative values used
here: round to `n` decimal places. -/
def toFixed (n : ℕ) (q : ℚ) : ℚ := (jsRound (q * 10 ^ n) : ℚ) / 10 ^ n

/-- Embeds `generateSummaryFromQuote(quote, fallbackExpiry)`.  The two
external effects are passed explicitly: `fmtDate` stands for
`new Date(·).toLocaleDateString('en-IN', ...)`, `today` for the formatted
current date (`weekOf`), and `r` for the six `Math.random()` draws. -/
def generateSummaryFromQuote (fmtDate : String → String) (today : String)
    (quote : MarketQuoteSnapshot) (fallbackExpiry : String) (r : RandomDraws) :
    WeeklySummary :=
  let midpoint := quote.last_price
  let randomMove := max (1 / 100 * midpoint) (r.r0 * (3 / 100) * midpoint)
  let lower := jsRound (midpoint - randomMove)
  let upper := jsRound (midpoint + randomMove)
  let confidence := 60 + jsRound (r.r1 * 30)
  let predictedClose := jsRound (midpoint + (r.r2 - 5 / 10) * randomMove * (5 / 10))
  let expiry :=
    match quote.legs.head? with
    | some l => if l.expiry ≠ "" then fmtDate l.expiry else fallbackExpiry
    | none => fallbackExpiry
  { weekOf := today
    expiry := expiry
    predictedRange := { lower := lower, upper := upper, confidence := confidence }
    closingPriceEstimate := predictedClose
    context :=
      { vix := toFixed 1 (12 + r.r3 * 5)
        oiPcr := toFixed 2 (8 / 10 + r.r4 * (5 / 10))
        trend := (trendMessages.get? (⌊r.r5 * 5⌋).toNat).getD "" } }

/-- Row of the `backtests` table of the strategy-simulator schema.  SQL
types are embedded loosely: `UUID`/`VARCHAR`/`TEXT`/date-time columns as
`String` (with `Option` for nullable columns), `DECIMAL` as `ℚ`, `INT`
as `ℤ`. -/
structure BacktestRow where
  id : String
  strategy_id : String
  name : String
  start_date : String
  end_date : String
  initial_capital : ℚ
  entry_logic : String
  exit_logic : String
  stop_loss_pct : Option ℚ
  target_pct : Option ℚ
  max_holding_days : Option ℤ
  status : String
  error_message : Option String
  created_at : String
  started_at : Option String
  completed_at : Option String
deriving DecidableEq, Repr

/-- The status values admitted by the schema's constraint
`CHECK (status IN ('PENDING', 'RUNNING', 'COMPLETED', 'FAILED'))`. -/
def backtestStatusValues : List String :=
  ["PENDING", "RUNNING", "COMPLETED", "FAILED"]

/-- Conjunction of the `CHECK` constraints on a `backtests` row:
`initial_capital > 0` and `status IN (...)`. -/
def backtestRowCheck (row : BacktestRow) : Bool :=
  decide (0 < row.initial_capital) && decide (row.status ∈ backtestStatusValues)

/-- SQL statements that can change the contents of the `backtests` table:
`INSERT` a row, `UPDATE` rows matching a condition by an assignment, and
`DELETE` rows matching a condition. -/
inductive BacktestsOp where
  | insert (row : BacktestRow)
  | update (assign : BacktestRow → BacktestRow) (cond : BacktestRow → Bool)
  | delete (cond : BacktestRow → Bool)

/-- Semantics of one statement against the `backtests` table under its
`CHECK` constraints: an `INSERT` or `UPDATE` whose resulting rows would
violate a constraint is rejected and leaves the table unchanged. -/
def applyOp (rows : List BacktestRow) : BacktestsOp → List BacktestRow
  | BacktestsOp.insert row =>
      if backtestRowCheck row then rows ++ [row] else rows
  | BacktestsOp.update assign cond =>
      let updated := rows.map fun r => if cond r then assign r else r
      if updated.all backtestRowCheck then updated else rows
  | BacktestsOp.delete cond => rows.filter fun r => !cond r

/-- Table contents after a sequence of statements, starting from the empty
table created by the DDL. -/
def applyOps (ops : List BacktestsOp) : List BacktestRow :=
  ops.foldl applyOp []

/-! ### Concrete evaluation fixtures

Small concrete values on which the theorems below are evaluated. -/

/-- Concrete CALL quote leg, strike 20100, last price 100. -/
def wLegCall1 : MarketLegQuote :=
  { identifier := none, strike := 20100, option_type := OptionType.CALL,
    expiry := "2024-01-04", bid := none, ask := none, last := some 100,
    iv := none }

/-- Concrete CALL quote leg, strike 20200, last price 50. -/
def wLegCall2 : MarketLegQuote :=
  { identifier := none, strike := 20200, option_type := OptionType.CALL,
    expiry := "2024-01-04", bid := none, ask := none, last := some 50,
    iv := none }

/-- Concrete PUT quote leg, strike 19900, last price 90. -/
def wLegPut1 : MarketLegQuote :=
  { identifier := none, strike := 19900, option_type := OptionType.PUT,
    expiry := "2024-01-04", bid := none, ask := none, last := some 90,
    iv := none }

/-- Concrete PUT quote leg, strike 19800, last price 40. -/
def wLegPut2 : MarketLegQuote :=
  { identifier := none, strike := 19800, option_type := OptionType.PUT,
    expiry := "2024-01-04", bid := none, ask := none, last := some 40,
    iv := none }

/-- Concrete quote snapshot at spot 20000 with two call and two put legs:
it yields an iron condor, a bull put spread and a bear call spread. -/
def wQuote : MarketQuoteSnapshot :=
  { symbol := "NIFTY", last_price := 20000,
    legs := [wLegCall1, wLegCall2, wLegPut1, wLegPut2] }

/-- Concrete quote snapshot with no legs. -/
def wEmptyQuote : MarketQuoteSnapshot :=
  { symbol := "NIFTY", last_price := 20000, legs := [] }

/-- Concrete date key (all expiries in `wQuote` coincide, so any key works). -/
def wDateKey : String → ℤ := fun _ => 0

/-- Concrete BUY option leg with positive premium. -/
def wBuyLeg : OptionLeg := toOptionLeg wLegCall1 Action.BUY

/-- Concrete random draws, all zero. -/
def wDraws0 : RandomDraws :=
  { r0 := 0, r1 := 0, r2 := 0, r3 := 0, r4 := 0, r5 := 0 }

/-- Concrete random draws with a different confidence draw. -/
def wDraws1 : RandomDraws :=
  { r0 := 0, r1 := 1 / 2, r2 := 0, r3 := 0, r4 := 0, r5 := 0 }

/-- Concrete valid `backtests` row with status `PENDING`. -/
def wRow : BacktestRow :=
  { id := "b1", strategy_id := "s1", name := "bt", start_date := "2024-01-01",
    end_date := "2024-03-31", initial_capital := 100000,
    entry_logic := "ON_DATE", exit_logic := "ON_EXPIRY",
    stop_loss_pct := none, target_pct := none, max_holding_days := none,
    status := "PENDING", error_message := none, created_at := "2024-01-01",
    started_at := none, completed_at := none }

/-! ### Helper lemmas -/

theorem jsRound_eq_intFloor (q : ℚ) : jsRound q = ⌊q + 1 / 2⌋ := by
  rw [jsRound, Rat.floor_def', Rat.floor_def]

theorem jsRound_sub_abs_le (q : ℚ) : |(jsRound q : ℚ) - q| ≤ 1 / 2 := by
  have h1 := Int.floor_le (q + 1 / 2)
  have h2 := Int.lt_floor_add_one (q + 1 / 2)
  rw [jsRound_eq_intFloor, abs_le]
  constructor <;> linarith

theorem jsRound_nonneg (q : ℚ) (h : 0 ≤ q) : 0 ≤ jsRound q := by
  rw [jsRound_eq_intFloor]
  exact Int.floor_nonneg.mpr (by linarith)

theorem foldl_add_map_sum {α : Type} (f : α → ℚ) (l : List α) (init : ℚ) :
    l.foldl (fun s x => s + f x) init = init + (l.map f).sum := by
  induction l generalizing init with
  | nil => simp
  | cons x xs ih => simp [ih]; ring

theorem nearestIn_mem (t : ℚ) :
    ∀ (xs : List MarketLegQuote) (x : MarketLegQuote), nearestIn t x xs ∈ x :: xs := by
  intro xs
  induction xs with
  | nil => intro x; simp [nearestIn]
  | cons y ys ih =>
    intro x
    rw [nearestIn, List.foldl_cons]
    have h := ih (if |y.strike - t| < |x.strike - t| then y else x)
    rw [nearestIn] at h
    rcases List.mem_cons.mp h with h1 | h1
    · rw [h1]
      split
      · exact List.mem_cons_of_mem _ (List.mem_cons_self _ _)
      · exact List.mem_cons_self _ _
    · exact List.mem_cons_of_mem _ (List.mem_cons_of_mem _ h1)

theorem nearestIn_min (t : ℚ) :
    ∀ (xs : List MarketLegQuote) (x : MarketLegQuote),
      ∀ y ∈ x :: xs, |(nearestIn t x xs).strike - t| ≤ |y.strike - t| := by
  intro xs
  induction xs with
  | nil =>
    intro x y hy
    rcases List.mem_cons.mp hy with rfl | h
    · simp [nearestIn]
    · simp at h
  | cons z zs ih =>
    intro x y hy
    rw [nearestIn, List.foldl_cons]
    have hmin :
        |(if |z.strike - t| < |x.strike - t| then z else x).strike - t| ≤ |x.strike - t| ∧
        |(if |z.strike - t| < |x.strike - t| then z else x).strike - t| ≤ |z.strike - t| := by
      constructor <;> split
      · exact le_of_lt (by assumption)
      · exact le_refl _
      · exact le_refl _
      · exact le_of_not_lt (by assumption)
    have hres := ih (if |z.strike - t| < |x.strike - t| then z else x)
    rw [nearestIn] at hres
    have hself :=
      hres _ (List.mem_cons_self (if |z.strike - t| < |x.strike - t| then z else x) zs)
    rcases List.mem_cons.mp hy with rfl | hy'
    · exact le_trans hself hmin.1
    · rcases List.mem_cons.mp hy' with rfl | hy''
      · exact le_trans hself hmin.2
      · exact hres y (List.mem_cons_of_mem _ hy'')

theorem findLeg_mem {legs : List MarketLegQuote} {t : ℚ} {dir : String}
    {l : MarketLegQuote} (h : findLeg legs t dir = some l) : l ∈ legs := by
  rw [findLeg] at h
  split at h
  · exact absurd h (by simp)
  · rename_i p rest hfil
    have heq : nearestIn t p rest = l := Option.some_injective _ h
    have hl : l ∈ p :: rest := heq ▸ nearestIn_mem t rest p
    rw [← hfil] at hl
    split at hl
    · exact List.mem_of_mem_filter hl
    · exact List.mem_of_mem_filter hl

theorem findLeg_above_some {legs : List MarketLegQuote} {t : ℚ}
    {l : MarketLegQuote} (h : findLeg legs t "above" = some l) :
    l ∈ legs ∧ t ≤ l.strike ∧
      ∀ y ∈ legs, t ≤ y.strike → |l.strike - t| ≤ |y.strike - t| := by
  simp only [findLeg, if_pos rfl] at h
  revert h
  cases hf : legs.filter (fun leg => decide (t ≤ leg.strike)) with
  | nil => intro h; exact absurd h (by simp)
  | cons p rest =>
    intro h
    have heq : nearestIn t p rest = l := Option.some_injective _ h
    have hl : l ∈ p :: rest := heq ▸ nearestIn_mem t rest p
    rw [← hf] at hl
    refine ⟨List.mem_of_mem_filter hl, ?_, ?_⟩
    · have := List.of_mem_filter hl
      simpa using this
    · intro y hy hty
      have hyf : y ∈ legs.filter (fun leg => decide (t ≤ leg.strike)) :=
        List.mem_filter.mpr ⟨hy, by simpa using hty⟩
      rw [hf] at hyf
      exact heq ▸ nearestIn_min t rest p y hyf

theorem findLeg_below_some {legs : List MarketLegQuote} {t : ℚ}
    {l : MarketLegQuote} (h : findLeg legs t "below" = some l) :
    l ∈ legs ∧ l.strike ≤ t ∧
      ∀ y ∈ legs, y.strike ≤ t → |l.strike - t| ≤ |y.strike - t| := by
  simp only [findLeg, if_neg (by decide : ¬("below" : String) = "above")] at h
  revert h
  cases hf : legs.filter (fun leg => decide (leg.strike ≤ t)) with
  | nil => intro h; exact absurd h (by simp)
  | cons p rest =>
    intro h
    have heq : nearestIn t p rest = l := Option.some_injective _ h
    have hl : l ∈ p :: rest := heq ▸ nearestIn_mem t rest p
    rw [← hf] at hl
    refine ⟨List.mem_of_mem_filter hl, ?_, ?_⟩
    · have := List.of_mem_filter hl
      simpa using this
    · intro y hy hty
      have hyf : y ∈ legs.filter (fun leg => decide (leg.strike ≤ t)) :=
        List.mem_filter.mpr ⟨hy, by simpa using hty⟩
      rw [hf] at hyf
      exact heq ▸ nearestIn_min t rest p y hyf

theorem findLeg_above_none {legs : List MarketLegQuote} {t : ℚ} :
    findLeg legs t "above" = none ↔ ∀ y ∈ legs, ¬ t ≤ y.strike := by
  simp only [findLeg, if_pos rfl]
  constructor
  · intro h y hy hty
    revert h
    cases hf : legs.filter (fun leg => decide (t ≤ leg.strike)) with
    | nil =>
      intro _
      have hyf : y ∈ legs.filter (fun leg => decide (t ≤ leg.strike)) :=
        List.mem_filter.mpr ⟨hy, by simpa using hty⟩
      rw [hf] at hyf
      simp at hyf
    | cons p rest => intro h; simp at h
  · intro h
    cases hf : legs.filter (fun leg => decide (t ≤ leg.strike)) with
    | nil => rfl
    | cons p rest =>
      have hp : p ∈ legs.filter (fun leg => decide (t ≤ leg.strike)) := by
        rw [hf]; exact List.mem_cons_self _ _
      exact absurd (by simpa using List.of_mem_filter hp)
        (h p (List.mem_of_mem_filter hp))

theorem findLeg_below_none {legs : List MarketLegQuote} {t : ℚ} :
    findLeg legs t "below" = none ↔ ∀ y ∈ legs, ¬ y.strike ≤ t := by
  simp only [findLeg, if_neg (by decide : ¬("below" : String) = "above")]
  constructor
  · intro h y hy hty
    revert h
    cases hf : legs.filter (fun leg => decide (leg.strike ≤ t)) with
    | nil =>
      intro _
      have hyf : y ∈ legs.filter (fun leg => decide (leg.strike ≤ t)) :=
        List.mem_filter.mpr ⟨hy, by simpa using hty⟩
      rw [hf] at hyf
      simp at hyf
    | cons p rest => intro h; simp at h
  · intro h
    cases hf : legs.filter (fun leg => decide (leg.strike ≤ t)) with
    | nil => rfl
    | cons p rest =>
      have hp : p ∈ legs.filter (fun leg => decide (leg.strike ≤ t)) := by
        rw [hf]; exact List.mem_cons_self _ _
      exact absurd (by simpa using List.of_mem_filter hp)
        (h p (List.mem_of_mem_filter hp))

theorem jsSetDedup_head {α : Type} [DecidableEq α] (l : List α) :
    (jsSetDedup l).head? = l.head? := by
  cases l <;> simp [jsSetDedup, jsSetDedupAux]

theorem activeExpiry_min {dateKey : String → ℤ} {q : MarketQuoteSnapshot}
    {e : String} (h : activeExpiry dateKey q = some e) :
    (∃ leg ∈ q.legs, leg.expiry = e) ∧
      ∀ leg ∈ q.legs, leg.expiry ≠ "" → dateKey e ≤ dateKey leg.expiry := by
  haveI : IsTotal String fun a b => dateKey a ≤ dateKey b :=
    ⟨fun a b => le_total _ _⟩
  haveI : IsTrans String fun a b => dateKey a ≤ dateKey b :=
    ⟨fun a b c hab hbc => le_trans hab hbc⟩
  rw [activeExpiry, sortedExpiries, jsSetDedup_head] at h
  have hsorted :=
    List.sorted_insertionSort (fun a b => dateKey a ≤ dateKey b)
      ((q.legs.map fun leg => leg.expiry).filter fun s => decide (s ≠ ""))
  revert h hsorted
  cases hS :
      ((q.legs.map fun leg => leg.expiry).filter fun s => decide (s ≠ "")).insertionSort
        fun a b => dateKey a ≤ dateKey b with
  | nil => intro h; simp at h
  | cons a rest =>
    intro h hsorted
    have ha : a = e := by simpa using h
    subst ha
    have hmin : ∀ y ∈ a :: rest, dateKey a ≤ dateKey y := by
      intro y hy
      rcases List.mem_cons.mp hy with rfl | hy'
      · exact le_refl _
      · exact (List.sorted_cons.mp hsorted).1 y hy'
    constructor
    · have he : a ∈ a :: rest := List.mem_cons_self _ _
      rw [← hS, List.mem_insertionSort] at he
      rcases List.mem_map.mp (List.mem_of_mem_filter he) with ⟨leg, hleg, hexp⟩
      exact ⟨leg, hleg, hexp⟩
    · intro leg hleg hne
      have hmem : leg.expiry ∈ a :: rest := by
        rw [← hS, List.mem_insertionSort]
        exact List.mem_filter.mpr ⟨List.mem_map_of_mem _ hleg, by simpa using hne⟩
      exact hmin _ hmem

theorem mem_expiryLegs {dateKey : String → ℤ} {q : MarketQuoteSnapshot}
    {e : String} {x : MarketLegQuote} (he : activeExpiry dateKey q = some e)
    (hx : x ∈ expiryLegs dateKey q) : x ∈ q.legs ∧ x.expiry = e := by
  rw [expiryLegs, he] at hx
  have h := List.mem_filter.mp hx
  exact ⟨h.1, by simpa using h.2⟩

theorem mem_callLegs {dateKey : String → ℤ} {q : MarketQuoteSnapshot}
    {x : MarketLegQuote} (hx : x ∈ callLegs dateKey q) :
    x ∈ expiryLegs dateKey q := by
  rw [callLegs, List.mem_insertionSort] at hx
  exact List.mem_of_mem_filter hx

theorem mem_putLegs {dateKey : String → ℤ} {q : MarketQuoteSnapshot}
    {x : MarketLegQuote} (hx : x ∈ putLegs dateKey q) :
    x ∈ expiryLegs dateKey q := by
  rw [putLegs, List.mem_insertionSort] at hx
  exact List.mem_of_mem_filter hx

theorem shortCallQ_mem {dateKey : String → ℤ} {q : MarketQuoteSnapshot}
    {a : MarketLegQuote} (h : shortCallQ dateKey q = some a) :
    a ∈ callLegs dateKey q := by
  rw [shortCallQ] at h
  exact findLeg_mem h

theorem longCallQ_mem {dateKey : String → ℤ} {q : MarketQuoteSnapshot}
    {b : MarketLegQuote} (h : longCallQ dateKey q = some b) :
    b ∈ callLegs dateKey q := by
  rw [longCallQ] at h
  rcases Option.bind_eq_some.mp h with ⟨a, _, hb⟩
  exact findLeg_mem hb

theorem shortPutQ_mem {dateKey : String → ℤ} {q : MarketQuoteSnapshot}
    {c : MarketLegQuote} (h : shortPutQ dateKey q = some c) :
    c ∈ putLegs dateKey q := by
  rw [shortPutQ] at h
  exact findLeg_mem h

theorem longPutQ_mem {dateKey : String → ℤ} {q : MarketQuoteSnapshot}
    {d : MarketLegQuote} (h : longPutQ dateKey q = some d) :
    d ∈ putLegs dateKey q := by
  rw [longPutQ] at h
  rcases Option.bind_eq_some.mp h with ⟨c, _, hd⟩
  exact findLeg_mem hd

theorem mem_buildStrategies {dateKey : String → ℤ} {q : MarketQuoteSnapshot}
    {s : StrategyRecommendation} (h : s ∈ buildStrategiesFromQuote dateKey q) :
    s ∈ condorList dateKey q ∨ s ∈ bullPutList dateKey q ∨
      s ∈ bearCallList dateKey q := by
  rw [buildStrategiesFromQuote] at h
  split at h
  · simp at h
  · rw [List.mem_insertionSort] at h
    rcases List.mem_append.mp h with h1 | h2
    · rcases List.mem_append.mp h1 with h1a | h1b
      · exact Or.inl h1a
      · exact Or.inr (Or.inl h1b)
    · exact Or.inr (Or.inr h2)

theorem mem_condorList {dateKey : String → ℤ} {q : MarketQuoteSnapshot}
    {s : StrategyRecommendation} (h : s ∈ condorList dateKey q) :
    ∃ a b c d, shortCallQ dateKey q = some a ∧ longCallQ dateKey q = some b ∧
      shortPutQ dateKey q = some c ∧ longPutQ dateKey q = some d ∧
      s = mkCondor a b c d := by
  rw [condorList] at h
  split at h
  · rename_i a b c d ha hb hc hd
    exact ⟨a, b, c, d, ha, hb, hc, hd, by simpa using h⟩
  · simp at h

theorem mem_bullPutList {dateKey : String → ℤ} {q : MarketQuoteSnapshot}
    {s : StrategyRecommendation} (h : s ∈ bullPutList dateKey q) :
    ∃ c d, shortPutQ dateKey q = some c ∧ longPutQ dateKey q = some d ∧
      s = mkBullPut c d := by
  rw [bullPutList] at h
  split at h
  · rename_i c d hc hd
    exact ⟨c, d, hc, hd, by simpa using h⟩
  · simp at h

theorem mem_bearCallList {dateKey : String → ℤ} {q : MarketQuoteSnapshot}
    {s : StrategyRecommendation} (h : s ∈ bearCallList dateKey q) :
    ∃ a b, shortCallQ dateKey q = some a ∧ longCallQ dateKey q = some b ∧
      s = mkBearCall a b := by
  rw [bearCallList] at h
  split at h
  · rename_i a b ha hb
    exact ⟨a, b, ha, hb, by simpa using h⟩
  · simp at h

theorem buildStrategies_pairwise (dateKey : String → ℤ)
    (q : MarketQuoteSnapshot) :
    List.Pairwise (fun a b : StrategyRecommendation => b.expectedPl ≤ a.expectedPl)
      (buildStrategiesFromQuote dateKey q) := by
  haveI :
      IsTotal StrategyRecommendation fun a b => b.expectedPl ≤ a.expectedPl :=
    ⟨fun a b => le_total _ _⟩
  haveI :
      IsTrans StrategyRecommendation fun a b => b.expectedPl ≤ a.expectedPl :=
    ⟨fun a b c hab hbc => le_trans hbc hab⟩
  rw [buildStrategiesFromQuote]
  split
  · exact List.Pairwise.nil
  · exact List.sorted_insertionSort _ _

theorem toOptionLeg_expiry (leg : MarketLegQuote) (action : Action) :
    (toOptionLeg leg action).expiry = leg.expiry := rfl

theorem mkCondor_legs (a b c d : MarketLegQuote) :
    (mkCondor a b c d).legs =
      [toOptionLeg a Action.SELL, toOptionLeg b Action.BUY,
       toOptionLeg c Action.SELL, toOptionLeg d Action.BUY] := rfl

theorem mkBullPut_legs (c d : MarketLegQuote) :
    (mkBullPut c d).legs = [toOptionLeg c Action.SELL, toOptionLeg d Action.BUY] :=
  rfl

theorem mkBearCall_legs (a b : MarketLegQuote) :
    (mkBearCall a b).legs = [toOptionLeg a Action.SELL, toOptionLeg b Action.BUY] :=
  rfl

theorem sum_neg_of_all_neg (l : List ℚ) (h0 : l ≠ []) (h : ∀ x ∈ l, x < 0) :
    l.sum < 0 := by
  induction l with
  | nil => exact absurd rfl h0
  | cons x xs ih =>
    rw [List.sum_cons]
    rcases eq_or_ne xs [] with rfl | hne
    · simpa using h x (List.mem_cons_self _ _)
    · have hxs := ih hne fun y hy => h y (List.mem_cons_of_mem _ hy)
      have hx := h x (List.mem_cons_self _ _)
      linarith

theorem applyOp_check (rows : List BacktestRow) (op : BacktestsOp)
    (h : ∀ r ∈ rows, backtestRowCheck r = true) :
    ∀ r ∈ applyOp rows op, backtestRowCheck r = true := by
  cases op with
  | insert row =>
    simp only [applyOp]
    split
    · rename_i hrow
      intro r hr
      rcases List.mem_append.mp hr with h1 | h2
      · exact h r h1
      · rw [List.mem_singleton.mp h2]
        exact hrow
    · exact h
  | update assign cond =>
    simp only [applyOp]
    split
    · rename_i hall
      intro r hr
      exact List.all_eq_true.mp hall r hr
    · exact h
  | delete cond =>
    simp only [applyOp]
    intro r hr
    exact h r (List.mem_of_mem_filter hr)

theorem applyOps_check (ops : List BacktestsOp) :
    ∀ r ∈ applyOps ops, backtestRowCheck r = true := by
  rw [applyOps]
  suffices hgen : ∀ (l : List BacktestsOp) (init : List BacktestRow),
      (∀ r ∈ init, backtestRowCheck r = true) →
      ∀ r ∈ l.foldl applyOp init, backtestRowCheck r = true by
    exact hgen ops [] (by simp)
  intro l
  induction l with
  | nil => intro init h; simpa using h
  | cons op rest ih =>
    intro init h
    rw [List.foldl_cons]
    exact ih _ (applyOp_check _ _ h)

/-! ### Claims -/

/-- C1: for every non-empty list of option legs and every point of the
payoff grid built by `buildPayoff`, the stored grid price is the rounded
grid price and the stored combined P&L equals, within the `Math.round`
tolerance of 1/2, the sum over the legs of `computeLegPl` at that grid
price. -/
theorem buildPayoff_point_sums_legs (legs : List OptionLeg) (spot : ℚ) (k : ℕ)
    (h0 : legs ≠ []) (h : k < (buildPayoff legs spot).length) :
    ((buildPayoff legs spot).get ⟨k, h⟩).price =
        jsRound (payoffLo legs spot + 50 * k) ∧
      |(((buildPayoff legs spot).get ⟨k, h⟩).pl : ℚ) -
          (legs.map fun leg =>
            computeLegPl leg (payoffLo legs spot + 50 * k)).sum| ≤ 1 / 2 := by
  have hget : (buildPayoff legs spot).get ⟨k, h⟩ =
      { price := jsRound (payoffLo legs spot + 50 * k)
        pl := jsRound (legs.foldl
          (fun sum leg => sum + computeLegPl leg (payoffLo legs spot + 50 * k))
          0) } := by
    simp only [buildPayoff, if_neg h0, List.get_eq_getElem]
    rw [List.getElem_map, List.getElem_range]
  rw [hget]
  refine ⟨rfl, ?_⟩
  simp only
  rw [foldl_add_map_sum, zero_add]
  exact jsRound_sub_abs_le _

/-- Witness for C1 at a one-leg strategy and spot 20000, grid point 0. -/
theorem buildPayoff_point_sums_legs_witness :
    ((buildPayoff [wBuyLeg] 20000).get ⟨0, by decide⟩).price =
        jsRound (payoffLo [wBuyLeg] 20000 + 50 * 0) ∧
      |(((buildPayoff [wBuyLeg] 20000).get ⟨0, by decide⟩).pl : ℚ) -
          (([wBuyLeg]).map fun leg =>
            computeLegPl leg (payoffLo [wBuyLeg] 20000 + 50 * 0)).sum| ≤ 1 / 2 :=
  buildPayoff_point_sums_legs [wBuyLeg] 20000 0 (by decide) (by decide)

/-- C2 counterexample: with the same quote (and the same date and
formatter) but different `Math.random` draws, `generateSummaryFromQuote`
returns different summaries — the confidence differs — so the weekly
summary is not a deterministic function of the quote alone. -/
theorem generateSummary_not_quote_deterministic :
    generateSummaryFromQuote (fun s => s) "" wQuote "fallback" wDraws0 ≠
      generateSummaryFromQuote (fun s => s) "" wQuote "fallback" wDraws1 := by
  decide

/-- C2 (amended): the weekly summary is deterministic given the quote and
the sampled `Math.random` draws — two runs of `generateSummaryFromQuote`
on the same quote with the same draws (and the same external date and
formatter inputs) return identical summaries in every field. -/
theorem generateSummary_deterministic (fmtDate : String → String)
    (today : String) (q : MarketQuoteSnapshot) (fb : String)
    (r r' : RandomDraws) (h : r = r') :
    generateSummaryFromQuote fmtDate today q fb r =
      generateSummaryFromQuote fmtDate today q fb r' := by
  rw [h]

/-- Witness for the amended C2 at a concrete quote and concrete draws. -/
theorem generateSummary_deterministic_witness :
    generateSummaryFromQuote (fun s => s) "" wQuote "fallback" wDraws0 =
      generateSummaryFromQuote (fun s => s) "" wQuote "fallback" wDraws0 :=
  generateSummary_deterministic (fun s => s) "" wQuote "fallback" wDraws0
    wDraws0 rfl

/-- C3: for every option leg and every underlying price, `computeLegPl`
assigns the leg its expiry intrinsic value — `max(price - strike, 0)` for
a CALL and `max(strike - price, 0)` for a PUT — less the entry premium,
multiplied by lot size, quantity, and `+1` for BUY / `-1` for SELL. -/
theorem computeLegPl_intrinsic_value (leg : OptionLeg) (price : ℚ) :
    computeLegPl leg price =
      ((if leg.optionType = OptionType.CALL then max (price - leg.strike) 0
          else max (leg.strike - price) 0) - leg.premium) *
        LOT_SIZE * leg.quantity.getD 1 *
        (if leg.action = Action.BUY then 1 else -1) := by
  simp only [computeLegPl]
  ring

/-- C4: a market-quote snapshot with no option legs yields no strategies
and no error: `buildStrategiesFromQuote` returns the empty list. -/
theorem buildStrategies_empty_on_no_legs (dateKey : String → ℤ)
    (q : MarketQuoteSnapshot) (h : q.legs = []) :
    buildStrategiesFromQuote dateKey q = [] := by
  rw [buildStrategiesFromQuote, if_pos h]

/-- Witness for C4 on a concrete legless quote. -/
theorem buildStrategies_empty_on_no_legs_witness :
    buildStrategiesFromQuote wDateKey wEmptyQuote = [] :=
  buildStrategies_empty_on_no_legs wDateKey wEmptyQuote rfl

/-- C5: the net credit of a strategy's legs is the sum of `+premium` over
SELL legs and `-premium` over BUY legs; `netPremium` is the same signed
sum scaled by lot size; and a non-empty strategy consisting only of BUY
legs with positive premiums has strictly negative net premium. -/
theorem netPremium_signed_sum (legs : List OptionLeg) :
    netCredit legs =
        (legs.map fun leg =>
          if leg.action = Action.SELL then leg.premium else -leg.premium).sum ∧
      netPremium legs = LOT_SIZE *
        (legs.map fun leg =>
          if leg.action = Action.SELL then leg.premium else -leg.premium).sum ∧
      (legs ≠ [] → (∀ leg ∈ legs, leg.action = Action.BUY ∧ 0 < leg.premium) →
        netPremium legs < 0) := by
  have hcredit : netCredit legs =
      (legs.map fun leg =>
        if leg.action = Action.SELL then leg.premium else -leg.premium).sum := by
    rw [netCredit, foldl_add_map_sum, zero_add]
  have hprem : netPremium legs = LOT_SIZE *
      (legs.map fun leg =>
        if leg.action = Action.SELL then leg.premium else -leg.premium).sum := by
    rw [netPremium, foldl_add_map_sum, zero_add]
    rw [List.map_congr_left (g := fun leg =>
      LOT_SIZE * (if leg.action = Action.SELL then leg.premium else -leg.premium))
      (by
        intro leg _
        by_cases hc : leg.action = Action.SELL <;> simp only [hc, if_pos,
          if_neg, ite_true, ite_false] <;> ring)]
    rw [List.sum_map_mul_left]
  refine ⟨hcredit, hprem, ?_⟩
  intro h0 hall
  rw [hprem]
  apply mul_neg_of_pos_of_neg
  · norm_num [LOT_SIZE]
  · apply sum_neg_of_all_neg
    · simpa using h0
    · intro x hx
      rcases List.mem_map.mp hx with ⟨leg, hleg, rfl⟩
      rcases hall leg hleg with ⟨hb, hp⟩
      have hbs : (if leg.action = Action.SELL then leg.premium else -leg.premium) =
          -leg.premium := by
        rw [hb]; simp
      rw [hbs]
      linarith

/-- Witness for C5 on a single concrete BUY leg with premium 100. -/
theorem netPremium_signed_sum_witness : netPremium [wBuyLeg] < 0 :=
  (netPremium_signed_sum [wBuyLeg]).2.2 (by decide) (by decide)

/-- C6: when an active expiry `e` exists, it is the expiry of some quote
leg, it is nearest — no leg with a non-empty expiry has an earlier date
key — and every leg of every strategy returned by
`buildStrategiesFromQuote` carries exactly `e`. -/
theorem buildStrategies_use_nearest_expiry (dateKey : String → ℤ)
    (q : MarketQuoteSnapshot) (e : String)
    (h : activeExpiry dateKey q = some e) :
    (∃ leg ∈ q.legs, leg.expiry = e) ∧
      (∀ leg ∈ q.legs, leg.expiry ≠ "" → dateKey e ≤ dateKey leg.expiry) ∧
      (∀ s ∈ buildStrategiesFromQuote dateKey q, ∀ ol ∈ s.legs,
        ol.expiry = e) := by
  refine ⟨(activeExpiry_min h).1, (activeExpiry_min h).2, ?_⟩
  intro s hs ol hol
  have hcall : ∀ x : MarketLegQuote, x ∈ callLegs dateKey q → x.expiry = e :=
    fun x hx => (mem_expiryLegs h (mem_callLegs hx)).2
  have hput : ∀ x : MarketLegQuote, x ∈ putLegs dateKey q → x.expiry = e :=
    fun x hx => (mem_expiryLegs h (mem_putLegs hx)).2
  rcases mem_buildStrategies hs with hc | hb | hbc
  · rcases mem_condorList hc with ⟨a, b, c, d, ha, hb', hc', hd', rfl⟩
    rw [mkCondor_legs] at hol
    simp only [List.mem_cons, List.not_mem_nil, or_false] at hol
    rcases hol with rfl | rfl | rfl | rfl
    · exact (toOptionLeg_expiry _ _).trans (hcall a (shortCallQ_mem ha))
    · exact (toOptionLeg_expiry _ _).trans (hcall b (longCallQ_mem hb'))
    · exact (toOptionLeg_expiry _ _).trans (hput c (shortPutQ_mem hc'))
    · exact (toOptionLeg_expiry _ _).trans (hput d (longPutQ_mem hd'))
  · rcases mem_bullPutList hb with ⟨c, d, hc', hd', rfl⟩
    rw [mkBullPut_legs] at hol
    simp only [List.mem_cons, List.not_mem_nil, or_false] at hol
    rcases hol with rfl | rfl
    · exact (toOptionLeg_expiry _ _).trans (hput c (shortPutQ_mem hc'))
    · exact (toOptionLeg_expiry _ _).trans (hput d (longPutQ_mem hd'))
  · rcases mem_bearCallList hbc with ⟨a, b, ha, hb', rfl⟩
    rw [mkBearCall_legs] at hol
    simp only [List.mem_cons, List.not_mem_nil, or_false] at hol
    rcases hol with rfl | rfl
    · exact (toOptionLeg_expiry _ _).trans (hcall a (shortCallQ_mem ha))
    · exact (toOptionLeg_expiry _ _).trans (hcall b (longCallQ_mem hb'))

/-- Witness for C6: the first leg of the first strategy built from the
concrete quote carries the active expiry. -/
theorem buildStrategies_use_nearest_expiry_witness :
    (((buildStrategiesFromQuote wDateKey wQuote).get ⟨0, by decide⟩).legs.get
        ⟨0, by decide⟩).expiry = "2024-01-04" :=
  (buildStrategies_use_nearest_expiry wDateKey wQuote "2024-01-04"
      (by decide)).2.2
    ((buildStrategiesFromQuote wDateKey wQuote).get ⟨0, by decide⟩)
    (List.get_mem _ _ _)
    (((buildStrategiesFromQuote wDateKey wQuote).get ⟨0, by decide⟩).legs.get
      ⟨0, by decide⟩)
    (List.get_mem _ _ _)

/-- C7: under the `CHECK` constraints of the `backtests` table, every row
reachable from the empty table by any sequence of insert/update/delete
statements has one of exactly the four lifecycle statuses `PENDING`,
`RUNNING`, `COMPLETED`, `FAILED`. -/
theorem backtests_status_lifecycle (ops : List BacktestsOp) (row : BacktestRow)
    (h : row ∈ applyOps ops) :
    row.status = "PENDING" ∨ row.status = "RUNNING" ∨
      row.status = "COMPLETED" ∨ row.status = "FAILED" := by
  have hc := applyOps_check ops row h
  rw [backtestRowCheck, Bool.and_eq_true] at hc
  have hmem := of_decide_eq_true hc.2
  simpa [backtestStatusValues] using hmem

/-- Witness for C7: a concrete inserted row has a lifecycle status. -/
theorem backtests_status_lifecycle_witness :
    wRow.status = "PENDING" ∨ wRow.status = "RUNNING" ∨
      wRow.status = "COMPLETED" ∨ wRow.status = "FAILED" :=
  backtests_status_lifecycle [BacktestsOp.insert wRow] wRow (by decide)

/-- C8: `findLeg` with direction `'above'` returns `undefined` exactly when
no leg has strike ≥ target, and otherwise a leg of the list with strike ≥
target minimizing the absolute distance to the target; symmetrically with
direction `'below'` for strike ≤ target. -/
theorem findLeg_nearest (legs : List MarketLegQuote) (target : ℚ) :
    (findLeg legs target "above" = none ↔ ∀ y ∈ legs, ¬ target ≤ y.strike) ∧
      (∀ l, findLeg legs target "above" = some l →
        l ∈ legs ∧ target ≤ l.strike ∧
          ∀ y ∈ legs, target ≤ y.strike →
            |l.strike - target| ≤ |y.strike - target|) ∧
      (findLeg legs target "below" = none ↔ ∀ y ∈ legs, ¬ y.strike ≤ target) ∧
      (∀ l, findLeg legs target "below" = some l →
        l ∈ legs ∧ l.strike ≤ target ∧
          ∀ y ∈ legs, y.strike ≤ target →
            |l.strike - target| ≤ |y.strike - target|) :=
  ⟨findLeg_above_none, fun _ h => findLeg_above_some h, findLeg_below_none,
    fun _ h => findLeg_below_some h⟩

/-- Witness for C8: on the concrete quote legs with target 20050 and
direction `'above'`, the returned leg is a quote leg at least at the
target and at least as near as the 20200 leg. -/
theorem findLeg_nearest_witness :
    wLegCall1 ∈ wQuote.legs ∧ (20050 : ℚ) ≤ wLegCall1.strike ∧
      |wLegCall1.strike - 20050| ≤ |wLegCall2.strike - 20050| := by
  have h := (findLeg_nearest wQuote.legs 20050).2.1 wLegCall1 (by decide)
  exact ⟨h.1, h.2.1, h.2.2 wLegCall2 (by decide) (by decide)⟩

/-- C9: every strategy returned by `buildStrategiesFromQuote` has a
non-negative `maxLoss`: each construction clamps the loss below at zero
before rounding. -/
theorem buildStrategies_maxLoss_nonneg (dateKey : String → ℤ)
    (q : MarketQuoteSnapshot) :
    ∀ s ∈ buildStrategiesFromQuote dateKey q, 0 ≤ s.maxLoss := by
  intro s hs
  rcases mem_buildStrategies hs with hc | hb | hbc
  · rcases mem_condorList hc with ⟨a, b, c, d, _, _, _, _, rfl⟩
    simp only [mkCondor]
    exact jsRound_nonneg _ (le_max_right _ _)
  · rcases mem_bullPutList hb with ⟨c, d, _, _, rfl⟩
    simp only [mkBullPut]
    exact jsRound_nonneg _ (le_max_right _ _)
  · rcases mem_bearCallList hbc with ⟨a, b, _, _, rfl⟩
    simp only [mkBearCall]
    exact jsRound_nonneg _ (le_max_right _ _)

/-- Witness for C9 on the first strategy built from the concrete quote. -/
theorem buildStrategies_maxLoss_nonneg_witness :
    0 ≤ ((buildStrategiesFromQuote wDateKey wQuote).get ⟨0, by decide⟩).maxLoss :=
  buildStrategies_maxLoss_nonneg wDateKey wQuote
    ((buildStrategiesFromQuote wDateKey wQuote).get ⟨0, by decide⟩)
    (List.get_mem _ _ _)

/-- C10: the strategy list returned by `buildStrategiesFromQuote` is sorted
in non-increasing order of `expectedPl`: each adjacent later strategy has
`expectedPl` at most the earlier one's. -/
theorem buildStrategies_sorted_by_expectedPl (dateKey : String → ℤ)
    (q : MarketQuoteSnapshot) (i : ℕ)
    (h1 : i < (buildStrategiesFromQuote dateKey q).length)
    (h2 : i + 1 < (buildStrategiesFromQuote dateKey q).length) :
    ((buildStrategiesFromQuote dateKey q).get ⟨i + 1, h2⟩).expectedPl ≤
      ((buildStrategiesFromQuote dateKey q).get ⟨i, h1⟩).expectedPl := by
  have hp := buildStrategies_pairwise dateKey q
  rw [List.pairwise_iff_get] at hp
  exact hp ⟨i, h1⟩ ⟨i + 1, h2⟩ (by exact Nat.lt_succ_self i)

/-- Witness for C10 on the first two strategies built from the concrete
quote. -/
theorem buildStrategies_sorted_by_expectedPl_witness :
    ((buildStrategiesFromQuote wDateKey wQuote).get ⟨1, by decide⟩).expectedPl ≤
      ((buildStrategiesFromQuote wDateKey wQuote).get ⟨0, by decide⟩).expectedPl :=
  buildStrategies_sorted_by_expectedPl wDateKey wQuote 0 (by decide) (by decide)

end Quantisti
